import Mathlib

/-!
Verification of the parking-calendar sync and occupancy aggregation subsystem.

Shallow embedding conventions:
  - Calendar days are modelled as integers (day numbers). The source normalizes
    every date to a date-only YYYY-MM-DD key before arithmetic, and adding one
    day to a date adds one to its day number; daysFromCivil converts a civil
    (year, month, day) date to its day number.
  - The JavaScript Map used by calculateDailyOccupancy is modelled as an
    association list with insertion-order semantics: set replaces the value at
    an existing key in place, otherwise appends the new key at the end.
  - JavaScript truthiness matters: in the guard
    if (item.deliveryDate && item.cruiseDuration), a present Date is always
    truthy, while a cruiseDuration of 0 is falsy, so a zero duration skips the
    whole block.
-/

namespace ParkingCalendar

/-- Lookup in a JavaScript-Map-like association list (first matching key). -/
def aget {α : Type} (m : List (Int × α)) (k : Int) : Option α :=
  match m with
  | [] => none
  | p :: rest => if p.1 = k then some p.2 else aget rest k

/-- Map.set: replace the value at the first occurrence of the key, otherwise
append the new entry at the end (JavaScript Map insertion order). -/
def aset {α : Type} (m : List (Int × α)) (k : Int) (v : α) : List (Int × α) :=
  match m with
  | [] => [(k, v)]
  | p :: rest => if p.1 = k then (k, v) :: rest else p :: aset rest k v

/-- A stored line item (Prisma LineItem row): quantity, optional delivery date
(day number), optional cruise duration in nights, parsed product name kept for
reference. -/
structure LineItem where
  wooCommerceId : Int
  name : String
  quantity : Int
  deliveryDate : Option Int
  cruiseDuration : Option Int
deriving DecidableEq, Repr

/-- The inner day loop of calculateDailyOccupancy: for i in [0, n), add the
quantity at key start + i (processing i in increasing order). -/
def addDays (m : List (Int × Int)) (start q : Int) : Nat → List (Int × Int)
  | 0 => m
  | n + 1 =>
    aset (addDays m start q n) (start + n)
      ((aget (addDays m start q n) (start + n)).getD 0 + q)

/-- One iteration of the lineItems.forEach body in calculateDailyOccupancy.
The guard if (item.deliveryDate && item.cruiseDuration) requires the delivery
date to be present and the duration to be present and nonzero (0 is falsy in
JavaScript); totalDays = cruiseDuration + 1, and the loop runs zero times when
totalDays is not positive. -/
def addItem (m : List (Int × Int)) (it : LineItem) : List (Int × Int) :=
  match it.deliveryDate, it.cruiseDuration with
  | some start, some dur =>
    if dur = 0 then m
    else addDays m start it.quantity (dur + 1).toNat
  | _, _ => m

/-- calculateDailyOccupancy from src/src/lib/woo-transform.ts: fold the
forEach body over the line items starting from an empty Map. -/
def calculateDailyOccupancy (items : List LineItem) : List (Int × Int) :=
  items.foldl addItem []

/-- A line item contributes to day d exactly when both fields are present, the
duration is positive, and d lies in the inclusive span
[deliveryDate, deliveryDate + cruiseDuration]. -/
def covers (d : Int) (it : LineItem) : Bool :=
  match it.deliveryDate, it.cruiseDuration with
  | some s, some n => decide (0 < n ∧ s ≤ d ∧ d ≤ s + n)
  | _, _ => false

/-- The quantity a single line item contributes to day d. -/
def coverContrib (d : Int) (it : LineItem) : Int :=
  if covers d it then it.quantity else 0

/-- Total contribution of a list of line items to day d. -/
def coverCount (items : List LineItem) (d : Int) : Int :=
  (items.map (coverContrib d)).sum

theorem aget_aset_self {α : Type} (m : List (Int × α)) (k : Int) (v : α) :
    aget (aset m k v) k = some v := by
  induction m with
  | nil => simp [aget, aset]
  | cons p rest ih =>
    by_cases h : p.1 = k
    · simp [aget, aset, h]
    · simp [aget, aset, h, ih]

theorem aget_aset_ne {α : Type} (m : List (Int × α)) (k k' : Int) (v : α)
    (h : k' ≠ k) : aget (aset m k v) k' = aget m k' := by
  have h2 : k ≠ k' := Ne.symm h
  induction m with
  | nil => simp [aget, aset, h2]
  | cons p rest ih =>
    by_cases hp : p.1 = k
    · simp [aget, aset, hp, h2]
    · by_cases hp' : p.1 = k'
      · simp [aget, aset, hp, hp', h]
      · simp [aget, aset, hp, hp', ih]

theorem aget_addDays (m : List (Int × Int)) (s q : Int) (n : Nat) (d : Int) :
    aget (addDays m s q n) d =
      if s ≤ d ∧ d < s + n then some ((aget m d).getD 0 + q) else aget m d := by
  induction n with
  | zero =>
    simp only [addDays]
    rw [if_neg (by omega)]
  | succ n ih =>
    by_cases hd : d = s + n
    · subst hd
      simp only [addDays]
      rw [aget_aset_self, ih, if_neg (by omega), if_pos (by push_cast; omega)]
    · have step : aget (addDays m s q (n + 1)) d = aget (addDays m s q n) d := by
        simp only [addDays]
        exact aget_aset_ne _ _ _ _ hd
      rw [step, ih]
      by_cases hc : s ≤ d ∧ d < s + (n : Int)
      · rw [if_pos hc, if_pos (by push_cast; omega)]
      · rw [if_neg hc, if_neg (by push_cast; omega)]

theorem aget_addItem (m : List (Int × Int)) (it : LineItem) (d : Int) :
    aget (addItem m it) d =
      if covers d it then some ((aget m d).getD 0 + it.quantity) else aget m d := by
  rcases hdd : it.deliveryDate with _ | s
  · simp [addItem, covers, hdd]
  · rcases hcd : it.cruiseDuration with _ | n
    · simp [addItem, covers, hdd, hcd]
    · simp only [addItem, covers, hdd, hcd, decide_eq_true_eq]
      by_cases h0 : n = 0
      · subst h0
        rw [if_pos rfl, if_neg (by omega)]
      · rw [if_neg h0, aget_addDays]
        by_cases hc : s ≤ d ∧ d < s + ((n + 1).toNat : Int)
        · rw [if_pos hc, if_pos (by omega)]
        · rw [if_neg hc, if_neg (by omega)]

theorem coverCount_nil (d : Int) : coverCount [] d = 0 := rfl

theorem coverCount_cons (it : LineItem) (items : List LineItem) (d : Int) :
    coverCount (it :: items) d = coverContrib d it + coverCount items d := by
  simp [coverCount]

theorem coverCount_eq_zero_of_not_any (items : List LineItem) (d : Int)
    (h : items.any (covers d) = false) : coverCount items d = 0 := by
  induction items with
  | nil => rfl
  | cons it rest ih =>
    simp only [List.any_cons, Bool.or_eq_false_iff] at h
    rw [coverCount_cons, ih h.2]
    simp [coverContrib, h.1]

theorem aget_foldl_addItem (items : List LineItem) (m : List (Int × Int)) (d : Int) :
    aget (items.foldl addItem m) d =
      if items.any (covers d) then some ((aget m d).getD 0 + coverCount items d)
      else aget m d := by
  induction items generalizing m with
  | nil => simp [coverCount]
  | cons it rest ih =>
    simp only [List.foldl_cons, List.any_cons]
    rw [ih, aget_addItem]
    by_cases h1 : covers d it
    · by_cases h2 : rest.any (covers d)
      · simp only [h1, h2, if_true, Bool.true_or, coverCount_cons]
        simp [coverContrib, h1]
        ring_nf
      · simp only [h1, h2, if_true, if_false, Bool.true_or, coverCount_cons,
          coverCount_eq_zero_of_not_any rest d (by simpa using h2)]
        simp [coverContrib, h1]
    · by_cases h2 : rest.any (covers d)
      · simp only [h1, h2, if_false, Bool.false_or, coverCount_cons]
        simp [coverContrib, h1]
      · simp [h1, h2]

/-- The central lookup characterization: a day is present in the computed
occupancy Map exactly when some line item covers it, and its value is the sum
of the covering quantities. -/
theorem aget_calc (items : List LineItem) (d : Int) :
    aget (calculateDailyOccupancy items) d =
      if items.any (covers d) then some (coverCount items d) else none := by
  unfold calculateDailyOccupancy
  rw [aget_foldl_addItem]
  simp [aget]

theorem keys_aset {α : Type} (m : List (Int × α)) (k : Int) (v : α) :
    (aset m k v).map Prod.fst =
      if k ∈ m.map Prod.fst then m.map Prod.fst else m.map Prod.fst ++ [k] := by
  induction m with
  | nil => simp [aset]
  | cons p rest ih =>
    by_cases hp : p.1 = k
    · simp [aset, hp]
    · have hne : k ≠ p.1 := fun hh => hp hh.symm
      by_cases hk : k ∈ rest.map Prod.fst
      · simp [aset, hp, ih, hk, hne]
      · simp [aset, hp, ih, hk, hne]

theorem nodup_keys_aset {α : Type} (m : List (Int × α)) (k : Int) (v : α)
    (h : (m.map Prod.fst).Nodup) : ((aset m k v).map Prod.fst).Nodup := by
  rw [keys_aset]
  by_cases hk : k ∈ m.map Prod.fst
  · simpa [hk] using h
  · rw [if_neg hk]
    simp [List.nodup_append, h, hk]

theorem aget_eq_of_mem {α : Type} (m : List (Int × α)) (p : Int × α)
    (hnd : (m.map Prod.fst).Nodup) (hm : p ∈ m) : aget m p.1 = some p.2 := by
  induction m with
  | nil => cases hm
  | cons q rest ih =>
    rw [List.map_cons, List.nodup_cons] at hnd
    rcases List.mem_cons.1 hm with h | h
    · subst h
      simp [aget]
    · have hq : q.1 ≠ p.1 := by
        intro he
        exact hnd.1 (he ▸ List.mem_map.2 ⟨p, h, rfl⟩)
      simp only [aget, if_neg hq]
      exact ih hnd.2 h

theorem nodup_keys_addDays (m : List (Int × Int)) (s q : Int) (n : Nat)
    (h : (m.map Prod.fst).Nodup) : ((addDays m s q n).map Prod.fst).Nodup := by
  induction n with
  | zero => exact h
  | succ n ih => exact nodup_keys_aset _ _ _ ih

theorem nodup_keys_addItem (m : List (Int × Int)) (it : LineItem)
    (h : (m.map Prod.fst).Nodup) : ((addItem m it).map Prod.fst).Nodup := by
  unfold addItem
  rcases it.deliveryDate with _ | s <;> rcases it.cruiseDuration with _ | n
  · exact h
  · exact h
  · exact h
  · by_cases h0 : n = 0
    · simpa [h0] using h
    · simpa [h0] using nodup_keys_addDays m s it.quantity (n + 1).toNat h

theorem nodup_keys_foldl_addItem (items : List LineItem) (m : List (Int × Int))
    (h : (m.map Prod.fst).Nodup) : ((items.foldl addItem m).map Prod.fst).Nodup := by
  induction items generalizing m with
  | nil => exact h
  | cons it rest ih => exact ih _ (nodup_keys_addItem m it h)

theorem nodup_keys_calc (items : List LineItem) :
    ((calculateDailyOccupancy items).map Prod.fst).Nodup :=
  nodup_keys_foldl_addItem items [] (by simp)

/-- Civil (proleptic Gregorian) date to day number, the standard
days-from-civil algorithm; date keys in the source are YYYY-MM-DD strings and
adding one calendar day adds one to this number. -/
def daysFromCivil (y m d : Int) : Int :=
  let y2 := if m ≤ 2 then y - 1 else y
  let era := (if 0 ≤ y2 then y2 else y2 - 399) / 400
  let yoe := y2 - era * 400
  let mp := (m + 9) % 12
  let doy := (153 * mp + 2) / 5 + d - 1
  let doe := yoe * 365 + yoe / 4 - yoe / 100 + doy
  era * 146097 + doe - 719468

/-- The Prisma filter used by both recomputation paths before calling
calculateDailyOccupancy: deliveryDate not null and cruiseDuration not null. -/
def hasDates (it : LineItem) : Bool :=
  it.deliveryDate.isSome && it.cruiseDuration.isSome

theorem addItem_eq_of_not_hasDates (m : List (Int × Int)) (it : LineItem)
    (h : hasDates it = false) : addItem m it = m := by
  unfold hasDates at h
  unfold addItem
  rcases hdd : it.deliveryDate with _ | s <;> rcases hcd : it.cruiseDuration with _ | n
  · rfl
  · rfl
  · rfl
  · rw [hdd, hcd] at h
    simp at h

theorem calc_filter_hasDates (items : List LineItem) :
    calculateDailyOccupancy (items.filter hasDates) = calculateDailyOccupancy items := by
  unfold calculateDailyOccupancy
  generalize ([] : List (Int × Int)) = m
  induction items generalizing m with
  | nil => rfl
  | cons it rest ih =>
    by_cases h : hasDates it
    · simp only [List.filter_cons, h, if_true, List.foldl_cons]
      exact ih _
    · have h2 : hasDates it = false := by simpa using h
      simp only [List.filter_cons, h2, List.foldl_cons,
        addItem_eq_of_not_hasDates m it h2]
      exact ih _

theorem sum_map_filter_eq {α : Type} (l : List α) (p : α → Bool) (f : α → Int)
    (h : ∀ x ∈ l, p x = false → f x = 0) :
    ((l.filter p).map f).sum = (l.map f).sum := by
  induction l with
  | nil => rfl
  | cons x rest ih =>
    have hrest : ∀ y ∈ rest, p y = false → f y = 0 :=
      fun y hy => h y (List.mem_cons_of_mem x hy)
    by_cases hx : p x
    · simp [List.filter_cons, hx, ih hrest]
    · have hx2 : p x = false := by simpa using hx
      simp [List.filter_cons, hx2, ih hrest, h x (List.mem_cons_self x rest) hx2]

theorem covers_hasDates (d : Int) (it : LineItem) (h : covers d it = true) :
    hasDates it = true := by
  unfold covers at h
  unfold hasDates
  rcases hdd : it.deliveryDate with _ | s <;> rcases hcd : it.cruiseDuration with _ | n <;>
    rw [hdd, hcd] at h <;> simp at h ⊢

theorem coverCount_filter_hasDates (items : List LineItem) (d : Int) :
    coverCount (items.filter hasDates) d = coverCount items d := by
  unfold coverCount
  refine sum_map_filter_eq items hasDates (coverContrib d) ?_
  intro it _ hf
  unfold coverContrib
  by_cases hc : covers d it
  · rw [covers_hasDates d it hc] at hf
    cases hf
  · simp [hc]

/-- Floor of a rational, written on the numerator and denominator so that the
kernel can evaluate it on concrete values. -/
def ratFloor (q : ℚ) : Int := q.num / (q.den : Int)

theorem ratFloor_eq_floor (q : ℚ) : ratFloor q = ⌊q⌋ := Rat.floor_def.symm

/-- JavaScript Math.round: round half toward positive infinity. -/
def jsRound (x : ℚ) : Int := ratFloor (x + 1 / 2)

/-- JavaScript Math.min on two numbers. -/
def jsMin (a b : ℚ) : ℚ := if a ≤ b then a else b

/-- calculateOccupancyPercentage from woo-transform.ts:
Math.round((carCount / maxCapacity) * 100); callers use maxCapacity = 115. -/
def calculateOccupancyPercentage (carCount maxCapacity : Int) : Int :=
  jsRound ((carCount : ℚ) / (maxCapacity : ℚ) * 100)

/-- A DailyOccupancy row. The percentage is kept as a rational because the
orders mutation path stores an unrounded JavaScript number. -/
structure OccRow where
  date : Int
  carCount : Int
  occupancyPercentage : ℚ
deriving DecidableEq, Repr

/-- recalculateDailyOccupancy from src/src/app/api/sync/route.ts: filter line
items to those with both fields not null, rebuild the Map, and write rows with
occupancyPercentage = Math.round((carCount / 115) * 100). -/
def recalcRowsSync (items : List LineItem) : List OccRow :=
  (calculateDailyOccupancy (items.filter hasDates)).map
    (fun p => ⟨p.1, p.2, ((jsRound ((p.2 : ℚ) / 115 * 100) : Int) : ℚ)⟩)

/-- recalculateFullOccupancy from src/src/app/api/orders/route.ts (the
create/update/delete mutation path): identical rebuild, but the stored
percentage is Math.min((carCount / 115) * 100, 100). -/
def recalcRowsOrders (items : List LineItem) : List OccRow :=
  (calculateDailyOccupancy (items.filter hasDates)).map
    (fun p => ⟨p.1, p.2, jsMin ((p.2 : ℚ) / 115 * 100) 100⟩)

/-- The materialized DailyOccupancy store keyed by day: the (date, carCount)
pairs shared by both recomputation paths. -/
def dailyOccupancyStore (items : List LineItem) : List (Int × Int) :=
  calculateDailyOccupancy (items.filter hasDates)

/-- The plain occupancy range query (src/src/app/api/occupancy/route.ts):
read DailyOccupancy rows whose date lies in [s, e]. -/
def queryRange (items : List LineItem) (s e : Int) : List (Int × Int) :=
  (dailyOccupancyStore items).filter (fun p => decide (s ≤ p.1) && decide (p.1 ≤ e))

/-- The span-sum condition exactly as the specification invariant words it:
the item has both a start date and a duration, and the inclusive span
[start, start + duration] contains the day; no restriction on the duration
beyond what the interval itself imposes. -/
def coversSpec (d : Int) (it : LineItem) : Bool :=
  match it.deliveryDate, it.cruiseDuration with
  | some s, some n => decide (s ≤ d ∧ d ≤ s + n)
  | _, _ => false

/-- Quantity sum over all items satisfying the specification wording. -/
def coverCountSpec (items : List LineItem) (d : Int) : Int :=
  (items.map (fun it => if coversSpec d it then it.quantity else 0)).sum

/-- An item eligible for aggregation: start date present and positive
duration. -/
def eligibleItem (it : LineItem) : Bool :=
  it.deliveryDate.isSome &&
    (match it.cruiseDuration with
     | some n => decide (0 < n)
     | none => false)

theorem map_fst_snd_id {α β : Type} (l : List (α × β)) :
    l.map (fun p => (p.1, p.2)) = l := by
  induction l with
  | nil => rfl
  | cons p rest ih => simp [ih]

theorem covers_eq_true_iff (d : Int) (it : LineItem) :
    covers d it = true ↔
      ∃ st du, it.deliveryDate = some st ∧ it.cruiseDuration = some du ∧
        0 < du ∧ st ≤ d ∧ d ≤ st + du := by
  unfold covers
  rcases hdd : it.deliveryDate with _ | s <;> rcases hcd : it.cruiseDuration with _ | n <;>
    simp [hdd, hcd, and_assoc]

theorem covers_imp_eligible (d : Int) (it : LineItem) (h : covers d it = true) :
    eligibleItem it = true := by
  rcases (covers_eq_true_iff d it).1 h with ⟨st, du, h1, h2, h3, _, _⟩
  unfold eligibleItem
  rw [h1, h2]
  simp [h3]

theorem coverCount_nonneg (items : List LineItem) (d : Int)
    (hq : ∀ it ∈ items, covers d it = true → 0 < it.quantity) :
    0 ≤ coverCount items d := by
  induction items with
  | nil => simp [coverCount]
  | cons it rest ih =>
    rw [coverCount_cons]
    have hrest := ih (fun x hx => hq x (List.mem_cons_of_mem it hx))
    have hhd : 0 ≤ coverContrib d it := by
      unfold coverContrib
      by_cases hc : covers d it
      · have := hq it (List.mem_cons_self it rest) hc
        simp [hc]
        omega
      · simp [hc]
    omega

theorem coverCount_pos (items : List LineItem) (d : Int)
    (hq : ∀ it ∈ items, covers d it = true → 0 < it.quantity)
    (hc : items.any (covers d) = true) : 0 < coverCount items d := by
  induction items with
  | nil => simp at hc
  | cons it rest ih =>
    rw [coverCount_cons]
    have hrest : ∀ x ∈ rest, covers d x = true → 0 < x.quantity :=
      fun x hx => hq x (List.mem_cons_of_mem it hx)
    rw [List.any_cons, Bool.or_eq_true] at hc
    rcases hc with h1 | h1
    · have hpos : 0 < coverContrib d it := by
        unfold coverContrib
        have := hq it (List.mem_cons_self it rest) h1
        simp [h1]
        omega
      have := coverCount_nonneg rest d hrest
      omega
    · have := ih hrest h1
      have hhd : 0 ≤ coverContrib d it := by
        unfold coverContrib
        by_cases hcc : covers d it
        · have := hq it (List.mem_cons_self it rest) hcc
          simp [hcc]
          omega
        · simp [hcc]
      omega

/-- Every row of the materialized store carries exactly the covering-quantity
sum of its day. -/
theorem store_value_eq_coverCount (items : List LineItem) (p : Int × Int)
    (h : p ∈ dailyOccupancyStore items) : p.2 = coverCount items p.1 := by
  have hnd : ((dailyOccupancyStore items).map Prod.fst).Nodup :=
    nodup_keys_calc (items.filter hasDates)
  have hg := aget_eq_of_mem _ p hnd h
  unfold dailyOccupancyStore at hg
  rw [aget_calc] at hg
  by_cases hany : (items.filter hasDates).any (covers p.1)
  · rw [if_pos hany] at hg
    have hv : coverCount (items.filter hasDates) p.1 = p.2 := by
      exact Option.some.injEq _ _ ▸ hg
    rw [← hv, coverCount_filter_hasDates]
  · rw [if_neg hany] at hg
    cases hg

/-- Claim C1 counterexample: take a 1-night item of quantity 1 and a 0-night
item of quantity 5, both starting on day 10 (a 0-night item arises from a
product named 0-Night, whose parsed duration is 0, which passes the Prisma
not-null filter). The recomputed DailyOccupancy row for day 10 has carCount 1,
because the JavaScript guard treats the duration 0 as falsy, while the sum of
quantities over all line items having both a start date and a duration whose
inclusive span contains day 10 is 1 + 5 = 6. -/
theorem dailyOccupancy_specSum_counterexample :
    aget (dailyOccupancyStore
      [⟨1, "1-Night A", 1, some 10, some 1⟩, ⟨2, "0-Night B", 5, some 10, some 0⟩]) 10
      = some 1
    ∧ coverCountSpec
      [⟨1, "1-Night A", 1, some 10, some 1⟩, ⟨2, "0-Night B", 5, some 10, some 0⟩] 10 = 6
    ∧ (1 : Int) ≠ 6 := by
  refine ⟨by decide, by decide, by decide⟩

/-- Claim C1 (amended): after every aggregate recomputation, on the sync path
as well as the order mutation path, every DailyOccupancy row carCount equals
the sum of the quantities of the line items that have a start date and a
POSITIVE duration and whose inclusive span [start, start + duration] contains
that day. (The original claim, which puts no sign restriction on the duration,
fails on zero-duration items: see the counterexample.) -/
theorem dailyOccupancy_carCount_eq_coverCount (items : List LineItem) (p : Int × Int)
    (h : p ∈ dailyOccupancyStore items) :
    p.2 = coverCount items p.1
    ∧ (recalcRowsSync items).map (fun r => (r.date, r.carCount)) = dailyOccupancyStore items
    ∧ (recalcRowsOrders items).map (fun r => (r.date, r.carCount)) = dailyOccupancyStore items := by
  refine ⟨store_value_eq_coverCount items p h, ?_, ?_⟩
  · unfold recalcRowsSync dailyOccupancyStore
    rw [List.map_map]
    exact map_fst_snd_id _
  · unfold recalcRowsOrders dailyOccupancyStore
    rw [List.map_map]
    exact map_fst_snd_id _

theorem dailyOccupancy_carCount_eq_coverCount_witness :
    ((10, 1) : Int × Int) ∈ dailyOccupancyStore [⟨1, "1-Night A", 1, some 10, some 1⟩]
    ∧ (1 : Int) = coverCount [⟨1, "1-Night A", 1, some 10, some 1⟩] 10 :=
  ⟨by decide,
    (dailyOccupancy_carCount_eq_coverCount [⟨1, "1-Night A", 1, some 10, some 1⟩]
      (10, 1) (by decide)).1⟩

/-- Claim C2: a booking with start date d0 and positive duration n contributes
exactly the n + 1 consecutive days d0 .. d0 + n, each carrying the booking
quantity and nothing else; concretely, a booking starting 2025-03-10 with
duration 5 covers exactly the six days 2025-03-10 through 2025-03-15. -/
theorem span_expansion_exact (w : Int) (nm : String) (s n q : Int) (hn : 0 < n) :
    (∀ d : Int,
      aget (calculateDailyOccupancy [⟨w, nm, q, some s, some n⟩]) d
        = if s ≤ d ∧ d ≤ s + n then some q else none)
    ∧ (∀ d : Int,
      aget (calculateDailyOccupancy [⟨w, nm, q, some (daysFromCivil 2025 3 10), some 5⟩]) d
        = if daysFromCivil 2025 3 10 ≤ d ∧ d ≤ daysFromCivil 2025 3 15 then some q else none) := by
  have key : ∀ (s0 n0 : Int), 0 < n0 → ∀ d : Int,
      aget (calculateDailyOccupancy [⟨w, nm, q, some s0, some n0⟩]) d
        = if s0 ≤ d ∧ d ≤ s0 + n0 then some q else none := by
    intro s0 n0 hn0 d
    rw [aget_calc]
    have hcov : covers d ⟨w, nm, q, some s0, some n0⟩ = decide (s0 ≤ d ∧ d ≤ s0 + n0) := by
      unfold covers
      by_cases hc : s0 ≤ d ∧ d ≤ s0 + n0
      · simp [hc, hn0]
      · simp [hc]
    by_cases hc : s0 ≤ d ∧ d ≤ s0 + n0
    · rw [if_pos hc]
      have hany : [(⟨w, nm, q, some s0, some n0⟩ : LineItem)].any (covers d) = true := by
        simp [hcov, hc]
      rw [if_pos hany]
      simp [coverCount, coverContrib, hcov, hc]
    · rw [if_neg hc]
      simp [hcov, hc]
  refine ⟨key s n hn, ?_⟩
  have h15 : daysFromCivil 2025 3 15 = daysFromCivil 2025 3 10 + 5 := by decide
  rw [h15]
  exact key (daysFromCivil 2025 3 10) 5 (by decide)

theorem span_expansion_exact_witness :
    0 < (3 : Int)
    ∧ aget (calculateDailyOccupancy [⟨7, "3-Night", 2, some 100, some 3⟩]) 101 = some 2 :=
  ⟨by decide, by
    rw [(span_expansion_exact 7 "3-Night" 100 3 2 (by decide)).1 101]
    decide⟩

/-- Claim C4 counterexample: with a single line item of quantity 116 the
recomputed carCount is 116 on both days of its span. On the order
create/update/delete mutation path the stored percentage is
Math.min((116/115)*100, 100) = 100: it is capped at 100 and differs from the
claimed round(116/115*100) = 101, and it does not exceed 100. -/
theorem occupancyPercentage_orders_counterexample :
    (⟨0, 116, (100 : ℚ)⟩ : OccRow) ∈ recalcRowsOrders [⟨1, "1-Night", 116, some 0, some 1⟩]
    ∧ jsRound ((116 : ℚ) / 115 * 100) = 101
    ∧ (100 : ℚ) ≠ ((101 : Int) : ℚ)
    ∧ ¬ (100 : ℚ) < (100 : ℚ) := by
  refine ⟨?_, ?_, by norm_num, by norm_num⟩
  · have hstore :
        calculateDailyOccupancy ([⟨1, "1-Night", 116, some 0, some 1⟩].filter hasDates)
          = [(0, 116), (1, 116)] := by decide
    unfold recalcRowsOrders
    rw [hstore]
    have hmin : jsMin ((((116 : Int) : ℚ)) / 115 * 100) 100 = 100 := by
      rw [jsMin, if_neg (by push_cast; norm_num)]
    simp only [List.map_cons, List.map_nil, hmin]
    exact List.mem_cons_self _ _
  · rw [jsRound, ratFloor_eq_floor]
    norm_num

/-- Claim C4 (amended): for every DailyOccupancy row, the sync path stores
occupancyPercentage = Math.round(carCount / 115 * 100), uncapped, so it
exceeds 100 whenever carCount > 115; the order create/update/delete path
instead stores Math.min(carCount / 115 * 100, 100), unrounded and capped so it
never exceeds 100. -/
theorem occupancyPercentage_per_path (items : List LineItem) (p : Int × Int)
    (h : p ∈ dailyOccupancyStore items) :
    (⟨p.1, p.2, ((jsRound ((p.2 : ℚ) / 115 * 100) : Int) : ℚ)⟩ : OccRow) ∈ recalcRowsSync items
    ∧ (⟨p.1, p.2, jsMin ((p.2 : ℚ) / 115 * 100) 100⟩ : OccRow) ∈ recalcRowsOrders items
    ∧ (115 < p.2 → (100 : ℚ) < ((jsRound ((p.2 : ℚ) / 115 * 100) : Int) : ℚ))
    ∧ jsMin ((p.2 : ℚ) / 115 * 100) 100 ≤ 100 := by
  refine ⟨List.mem_map_of_mem _ h, List.mem_map_of_mem _ h, ?_, ?_⟩
  · intro hc
    have hround : (100 : Int) < jsRound ((p.2 : ℚ) / 115 * 100) := by
      rw [jsRound, ratFloor_eq_floor]
      have hcq : (116 : ℚ) ≤ ((p.2 : Int) : ℚ) := by exact_mod_cast hc
      have h1 : ((101 : Int) : ℚ) ≤ (p.2 : ℚ) / 115 * 100 + 1 / 2 := by
        push_cast
        linarith
      have h2 := Int.le_floor.2 h1
      omega
    exact_mod_cast hround
  · rw [jsMin]
    by_cases hle : ((p.2 : ℚ) / 115 * 100) ≤ 100
    · rw [if_pos hle]
      exact hle
    · rw [if_neg hle]

theorem occupancyPercentage_per_path_witness :
    ((0, 116) : Int × Int) ∈ dailyOccupancyStore [⟨1, "1-Night", 116, some 0, some 1⟩]
    ∧ ((115 : Int) < 116 → (100 : ℚ) < ((jsRound ((116 : ℚ) / 115 * 100) : Int) : ℚ)) :=
  ⟨by decide,
    (occupancyPercentage_per_path [⟨1, "1-Night", 116, some 0, some 1⟩] (0, 116)
      (by decide)).2.2.1⟩

/-- Claim C10: a day has an entry in the computed occupancy Map exactly when
some line item with a start date and a positive duration spans it inclusively;
a day covered by no eligible item has no row, so the range query omits it, and
when every eligible item has positive quantity every stored count is
positive. -/
theorem occupancy_keys_coverage (items : List LineItem) (d s e : Int) :
    ((aget (calculateDailyOccupancy items) d).isSome = true
      ↔ ∃ it ∈ items, ∃ st du, it.deliveryDate = some st ∧ it.cruiseDuration = some du ∧
          0 < du ∧ st ≤ d ∧ d ≤ st + du)
    ∧ ((∀ it ∈ items, eligibleItem it = true → 0 < it.quantity) →
        ∀ v : Int, aget (calculateDailyOccupancy items) d = some v → 0 < v)
    ∧ (aget (calculateDailyOccupancy items) d = none →
        ∀ p ∈ queryRange items s e, p.1 ≠ d) := by
  refine ⟨?_, ?_, ?_⟩
  · rw [aget_calc]
    by_cases hany : items.any (covers d)
    · rw [if_pos hany]
      simp only [Option.isSome_some, true_iff]
      rcases List.any_eq_true.1 hany with ⟨it, hit, hcov⟩
      exact ⟨it, hit, (covers_eq_true_iff d it).1 hcov⟩
    · rw [if_neg hany]
      simp only [Option.isSome_none, Bool.false_eq_true, false_iff]
      intro ⟨it, hit, st, du, h1, h2, h3, h4, h5⟩
      exact hany (List.any_eq_true.2 ⟨it, hit,
        (covers_eq_true_iff d it).2 ⟨st, du, h1, h2, h3, h4, h5⟩⟩)
  · intro hq v hv
    rw [aget_calc] at hv
    by_cases hany : items.any (covers d)
    · rw [if_pos hany] at hv
      have hv2 : coverCount items d = v := Option.some.injEq _ _ ▸ hv
      rw [← hv2]
      exact coverCount_pos items d
        (fun it hit hc => hq it hit (covers_imp_eligible d it hc)) hany
    · rw [if_neg hany] at hv
      cases hv
  · intro hnone p hp hpd
    have hmem : p ∈ dailyOccupancyStore items := List.mem_of_mem_filter hp
    have hnd : ((dailyOccupancyStore items).map Prod.fst).Nodup :=
      nodup_keys_calc (items.filter hasDates)
    have hg := aget_eq_of_mem _ p hnd hmem
    unfold dailyOccupancyStore at hg
    rw [calc_filter_hasDates, hpd, hnone] at hg
    cases hg

theorem occupancy_keys_coverage_witness :
    (∀ it ∈ [(⟨1, "2-Night", 3, some 10, some 2⟩ : LineItem)],
      eligibleItem it = true → 0 < it.quantity)
    ∧ aget (calculateDailyOccupancy [(⟨1, "2-Night", 3, some 10, some 2⟩ : LineItem)]) 11
        = some 3
    ∧ 0 < (3 : Int) :=
  ⟨by decide, by decide,
    (occupancy_keys_coverage [(⟨1, "2-Night", 3, some 10, some 2⟩ : LineItem)] 11 0 20).2.1
      (by decide) 3 (by decide)⟩

/-- Terminal status values of a SyncStatus record. -/
inductive RunStatus where
  | running
  | completed
  | failed
deriving DecidableEq, Repr

/-- One fetched order as seen by the reconciliation loop of POST /api/sync,
tagged with the outcome of its upsert: none when the upsert succeeds, some
message when it throws. -/
structure FetchedOrder where
  id : Int
  failMsg : Option String
deriving DecidableEq, Repr

/-- The body of the for loop over wooOrders in POST /api/sync: on success
increment ordersProcessed, on error push {orderId, error} onto the error list
and continue with the next order. -/
def processStep (acc : Nat × List (Int × String)) (o : FetchedOrder) :
    Nat × List (Int × String) :=
  match o.failMsg with
  | none => (acc.1 + 1, acc.2)
  | some e => (acc.1, acc.2 ++ [(o.id, e)])

/-- The whole loop, started from ordersProcessed = 0 and errors = []. -/
def processOrders (orders : List FetchedOrder) : Nat × List (Int × String) :=
  orders.foldl processStep (0, [])

/-- The terminal status written by POST /api/sync:
errors.length > 0 ? failed : completed. -/
def runStatusAfter (errors : List (Int × String)) : RunStatus :=
  if errors.length > 0 then RunStatus.failed else RunStatus.completed

theorem processOrders_go (orders : List FetchedOrder) (a : Nat)
    (b : List (Int × String)) :
    orders.foldl processStep (a, b)
      = (a + (orders.filter (fun o => o.failMsg.isNone)).length,
         b ++ orders.filterMap (fun o => o.failMsg.map (fun e => (o.id, e)))) := by
  induction orders generalizing a b with
  | nil => simp
  | cons o rest ih =>
    rcases ho : o.failMsg with _ | e
    · rw [List.foldl_cons]
      show rest.foldl processStep (processStep (a, b) o) = _
      rw [show processStep (a, b) o = (a + 1, b) by simp [processStep, ho], ih]
      simp [List.filter_cons, List.filterMap_cons, ho]
      omega
    · rw [List.foldl_cons]
      show rest.foldl processStep (processStep (a, b) o) = _
      rw [show processStep (a, b) o = (a, b ++ [(o.id, e)]) by simp [processStep, ho], ih]
      simp [List.filter_cons, List.filterMap_cons, ho]

theorem length_filter_isNone_add_isSome (orders : List FetchedOrder) :
    (orders.filter (fun o => o.failMsg.isNone)).length
      + (orders.filter (fun o => o.failMsg.isSome)).length = orders.length := by
  induction orders with
  | nil => rfl
  | cons o rest ih =>
    rcases ho : o.failMsg with _ | e <;>
      simp [List.filter_cons, ho] <;> omega

theorem length_filterMap_errors (orders : List FetchedOrder) :
    (orders.filterMap (fun o => o.failMsg.map (fun e => (o.id, e)))).length
      = (orders.filter (fun o => o.failMsg.isSome)).length := by
  induction orders with
  | nil => rfl
  | cons o rest ih =>
    rcases ho : o.failMsg with _ | e <;>
      simp [List.filter_cons, List.filterMap_cons, ho, ih]

/-- Claim C5: over N fetched orders of which k fail their per-order upsert,
the loop processes every order (the error list is exactly the failing orders,
in order), records ordersProcessed = N - k, collects exactly k error entries,
and the terminal status is failed when k > 0 and completed when k = 0. -/
theorem sync_partial_failure (orders : List FetchedOrder) (N k : Nat)
    (hN : orders.length = N)
    (hk : (orders.filter (fun o => o.failMsg.isSome)).length = k) :
    (processOrders orders).1 = N - k
    ∧ (processOrders orders).2
        = orders.filterMap (fun o => o.failMsg.map (fun e => (o.id, e)))
    ∧ (processOrders orders).2.length = k
    ∧ runStatusAfter (processOrders orders).2
        = (if 0 < k then RunStatus.failed else RunStatus.completed) := by
  have hgo := processOrders_go orders 0 []
  have hsum := length_filter_isNone_add_isSome orders
  have hlen := length_filterMap_errors orders
  unfold processOrders
  rw [hgo]
  simp only [List.nil_append, Nat.zero_add]
  refine ⟨by omega, by simp, by omega, ?_⟩
  unfold runStatusAfter
  by_cases hk0 : 0 < k
  · rw [if_pos (by omega), if_pos hk0]
  · rw [if_neg (by omega), if_neg hk0]

theorem sync_partial_failure_witness :
    ([⟨1, none⟩, ⟨2, none⟩, ⟨3, none⟩, ⟨4, none⟩, ⟨5, none⟩, ⟨6, some "bad payload"⟩,
      ⟨7, none⟩, ⟨8, none⟩, ⟨9, none⟩, ⟨10, none⟩] : List FetchedOrder).length = 10
    ∧ (processOrders
        [⟨1, none⟩, ⟨2, none⟩, ⟨3, none⟩, ⟨4, none⟩, ⟨5, none⟩, ⟨6, some "bad payload"⟩,
         ⟨7, none⟩, ⟨8, none⟩, ⟨9, none⟩, ⟨10, none⟩]).1 = 9
    ∧ (processOrders
        [⟨1, none⟩, ⟨2, none⟩, ⟨3, none⟩, ⟨4, none⟩, ⟨5, none⟩, ⟨6, some "bad payload"⟩,
         ⟨7, none⟩, ⟨8, none⟩, ⟨9, none⟩, ⟨10, none⟩]).2.length = 1
    ∧ runStatusAfter (processOrders
        [⟨1, none⟩, ⟨2, none⟩, ⟨3, none⟩, ⟨4, none⟩, ⟨5, none⟩, ⟨6, some "bad payload"⟩,
         ⟨7, none⟩, ⟨8, none⟩, ⟨9, none⟩, ⟨10, none⟩]).2 = RunStatus.failed := by
  have h := sync_partial_failure
    [⟨1, none⟩, ⟨2, none⟩, ⟨3, none⟩, ⟨4, none⟩, ⟨5, none⟩, ⟨6, some "bad payload"⟩,
     ⟨7, none⟩, ⟨8, none⟩, ⟨9, none⟩, ⟨10, none⟩] 10 1 (by decide) (by decide)
  exact ⟨by decide, h.1, h.2.2.1, by rw [h.2.2.2]; decide⟩

/-- A recorded reconciliation run: creation time, the lastSyncAt timestamp
captured at its start, and its terminal status. -/
structure SyncRun where
  createdAt : Int
  lastSyncAt : Int
  status : RunStatus
deriving DecidableEq, Repr

/-- One step of prisma findFirst with where status = completed and orderBy
createdAt desc: keep the completed run with the greatest createdAt. -/
def pickLatestCompleted (acc : Option SyncRun) (r : SyncRun) : Option SyncRun :=
  if r.status = RunStatus.completed then
    match acc with
    | none => some r
    | some b => if b.createdAt < r.createdAt then some r else some b
  else acc

/-- The completed run with the greatest createdAt, if any. -/
def findLatestCompleted (runs : List SyncRun) : Option SyncRun :=
  runs.foldl pickLatestCompleted none

/-- new Date(2025-01-01): the fixed epoch fallback, as a day number. -/
def EPOCH : Int := daysFromCivil 2025 1 1

/-- fromDate in POST /api/sync: lastSync is the latest completed run when
syncType is incremental and null otherwise, and
fromDate = lastSync?.lastSyncAt || new Date(2025-01-01). -/
def computeFromDate (syncType : String) (runs : List SyncRun) : Int :=
  match (if syncType = "incremental" then findLatestCompleted runs else none) with
  | some r => r.lastSyncAt
  | none => EPOCH

theorem pick_none (r : SyncRun) (hs : r.status = RunStatus.completed) :
    pickLatestCompleted none r = some r := by
  unfold pickLatestCompleted
  rw [if_pos hs]

theorem pick_some_lt (a r : SyncRun) (hs : r.status = RunStatus.completed)
    (hlt : a.createdAt < r.createdAt) : pickLatestCompleted (some a) r = some r := by
  unfold pickLatestCompleted
  rw [if_pos hs]
  show (if a.createdAt < r.createdAt then some r else some a) = some r
  rw [if_pos hlt]

theorem pick_some_ge (a r : SyncRun) (hs : r.status = RunStatus.completed)
    (hlt : ¬ a.createdAt < r.createdAt) : pickLatestCompleted (some a) r = some a := by
  unfold pickLatestCompleted
  rw [if_pos hs]
  show (if a.createdAt < r.createdAt then some r else some a) = some a
  rw [if_neg hlt]

theorem pick_skip (acc : Option SyncRun) (r : SyncRun)
    (hs : r.status ≠ RunStatus.completed) : pickLatestCompleted acc r = acc := by
  unfold pickLatestCompleted
  rw [if_neg hs]

theorem pick_step_cases (acc : Option SyncRun) (r : SyncRun) :
    pickLatestCompleted acc r = acc
    ∨ (pickLatestCompleted acc r = some r ∧ r.status = RunStatus.completed) := by
  by_cases hs : r.status = RunStatus.completed
  · cases acc with
    | none => exact Or.inr ⟨pick_none r hs, hs⟩
    | some a =>
      by_cases hlt : a.createdAt < r.createdAt
      · exact Or.inr ⟨pick_some_lt a r hs hlt, hs⟩
      · exact Or.inl (pick_some_ge a r hs hlt)
  · exact Or.inl (pick_skip acc r hs)

theorem pick_foldl_mem (runs : List SyncRun) :
    ∀ (acc : Option SyncRun) (b : SyncRun),
      runs.foldl pickLatestCompleted acc = some b →
      acc = some b ∨ (b ∈ runs ∧ b.status = RunStatus.completed) := by
  induction runs with
  | nil => exact fun acc b h => Or.inl h
  | cons r0 rest ih =>
    intro acc b h
    rcases ih (pickLatestCompleted acc r0) b h with h1 | h1
    · rcases pick_step_cases acc r0 with h2 | ⟨h2, hs⟩
      · exact Or.inl (h2 ▸ h1)
      · rw [h2] at h1
        cases h1
        exact Or.inr ⟨List.mem_cons_self _ _, hs⟩
    · exact Or.inr ⟨List.mem_cons_of_mem _ h1.1, h1.2⟩

theorem pick_foldl_mono (runs : List SyncRun) :
    ∀ (a b : SyncRun),
      runs.foldl pickLatestCompleted (some a) = some b → a.createdAt ≤ b.createdAt := by
  induction runs with
  | nil =>
    intro a b h
    cases h
    exact le_refl _
  | cons r0 rest ih =>
    intro a b h
    rw [List.foldl_cons] at h
    by_cases hs : r0.status = RunStatus.completed
    · by_cases hlt : a.createdAt < r0.createdAt
      · rw [pick_some_lt a r0 hs hlt] at h
        exact le_of_lt (lt_of_lt_of_le hlt (ih r0 b h))
      · rw [pick_some_ge a r0 hs hlt] at h
        exact ih a b h
    · rw [pick_skip _ r0 hs] at h
      exact ih a b h

theorem pick_foldl_dom (runs : List SyncRun) :
    ∀ (acc : Option SyncRun) (b : SyncRun),
      runs.foldl pickLatestCompleted acc = some b →
      ∀ r ∈ runs, r.status = RunStatus.completed → r.createdAt ≤ b.createdAt := by
  induction runs with
  | nil =>
    intro acc b _ r hr
    cases hr
  | cons r0 rest ih =>
    intro acc b h r hr hrs
    rcases List.mem_cons.1 hr with heq | hr'
    · subst heq
      have hstep : ∃ a0, pickLatestCompleted acc r = some a0 ∧ r.createdAt ≤ a0.createdAt := by
        cases acc with
        | none => exact ⟨r, pick_none r hrs, le_refl _⟩
        | some a =>
          by_cases hlt : a.createdAt < r.createdAt
          · exact ⟨r, pick_some_lt a r hrs hlt, le_refl _⟩
          · exact ⟨a, pick_some_ge a r hrs hlt, by omega⟩
      rcases hstep with ⟨a0, ha0, hle⟩
      rw [List.foldl_cons, ha0] at h
      exact le_trans hle (pick_foldl_mono rest a0 b h)
    · exact ih (pickLatestCompleted acc r0) b h r hr' hrs

theorem pick_foldl_isSome (runs : List SyncRun) :
    ∀ (acc : Option SyncRun),
      ((∃ r ∈ runs, r.status = RunStatus.completed) ∨ acc.isSome = true) →
      (runs.foldl pickLatestCompleted acc).isSome = true := by
  induction runs with
  | nil =>
    intro acc h
    rcases h with ⟨r, hr, _⟩ | h
    · cases hr
    · exact h
  | cons r0 rest ih =>
    intro acc h
    rw [List.foldl_cons]
    apply ih
    rcases h with ⟨r, hr, hs⟩ | hacc
    · rcases List.mem_cons.1 hr with heq | hr'
      · subst heq
        rcases pick_step_cases acc r with h2 | ⟨h2, _⟩
        · cases acc with
          | none =>
            rw [pick_none r hs]
            exact Or.inr rfl
          | some a =>
            rw [h2]
            exact Or.inr rfl
        · rw [h2]
          exact Or.inr rfl
      · exact Or.inl ⟨r, hr', hs⟩
    · rcases pick_step_cases acc r0 with h2 | ⟨h2, _⟩
      · rw [h2]
        exact Or.inr hacc
      · rw [h2]
        exact Or.inr rfl

theorem pick_foldl_none_of_no_completed (runs : List SyncRun) :
    ∀ (acc : Option SyncRun),
      (∀ x ∈ runs, x.status ≠ RunStatus.completed) →
      runs.foldl pickLatestCompleted acc = acc := by
  induction runs with
  | nil => exact fun acc _ => rfl
  | cons r0 rest ih =>
    intro acc h
    rw [List.foldl_cons]
    have hstep : pickLatestCompleted acc r0 = acc := by
      unfold pickLatestCompleted
      rw [if_neg (h r0 (List.mem_cons_self _ _))]
    rw [hstep]
    exact ih acc (fun x hx => h x (List.mem_cons_of_mem _ hx))

/-- Claim C6: a full reconciliation always starts from the 2025-01-01 epoch;
an incremental reconciliation starts from the lastSyncAt of the most recent
completed run, falling back to the epoch when no completed run exists; and a
run whose status is not completed (for example failed) never changes the
computed watermark. -/
theorem sync_watermark (runs : List SyncRun) (r f : SyncRun) :
    computeFromDate "full" runs = EPOCH
    ∧ ((∀ x ∈ runs, x.status ≠ RunStatus.completed) →
        computeFromDate "incremental" runs = EPOCH)
    ∧ (r ∈ runs → r.status = RunStatus.completed →
        (∀ x ∈ runs, x ≠ r → x.status = RunStatus.completed → x.createdAt < r.createdAt) →
        computeFromDate "incremental" runs = r.lastSyncAt)
    ∧ (f.status ≠ RunStatus.completed →
        computeFromDate "incremental" (f :: runs) = computeFromDate "incremental" runs) := by
  refine ⟨?_, ?_, ?_, ?_⟩
  · unfold computeFromDate
    rw [if_neg (by decide)]
  · intro h
    unfold computeFromDate
    rw [if_pos rfl]
    unfold findLatestCompleted
    rw [pick_foldl_none_of_no_completed runs none h]
  · intro hr hrs hmax
    unfold computeFromDate
    rw [if_pos rfl]
    have hsome : (findLatestCompleted runs).isSome = true :=
      pick_foldl_isSome runs none (Or.inl ⟨r, hr, hrs⟩)
    rcases Option.isSome_iff_exists.1 hsome with ⟨b, hb⟩
    have hmem := pick_foldl_mem runs none b hb
    rcases hmem with h1 | ⟨hbmem, hbs⟩
    · cases h1
    · have hble := pick_foldl_dom runs none b hb r hr hrs
      by_cases hbr : b = r
      · rw [hb, hbr]
      · have := hmax b hbmem hbr hbs
        omega
  · intro hf
    unfold computeFromDate
    rw [if_pos rfl, if_pos rfl]
    unfold findLatestCompleted
    rw [List.foldl_cons]
    have hstep : pickLatestCompleted none f = none := by
      unfold pickLatestCompleted
      rw [if_neg hf]
    rw [hstep]

theorem sync_watermark_witness :
    (⟨5, 50, RunStatus.completed⟩ : SyncRun)
        ∈ [(⟨5, 50, RunStatus.completed⟩ : SyncRun), ⟨7, 70, RunStatus.failed⟩,
           ⟨3, 30, RunStatus.completed⟩]
    ∧ computeFromDate "incremental"
        [(⟨5, 50, RunStatus.completed⟩ : SyncRun), ⟨7, 70, RunStatus.failed⟩,
         ⟨3, 30, RunStatus.completed⟩] = 50 :=
  ⟨by decide,
    (sync_watermark
      [(⟨5, 50, RunStatus.completed⟩ : SyncRun), ⟨7, 70, RunStatus.failed⟩,
       ⟨3, 30, RunStatus.completed⟩]
      ⟨5, 50, RunStatus.completed⟩ ⟨5, 50, RunStatus.completed⟩).2.2.1
      (by decide) (by decide) (by decide)⟩

/-- Decimal digits to a natural number, most significant first. -/
def natOfDigits (acc : Nat) : List Char → Nat
  | [] => acc
  | c :: cs => natOfDigits (acc * 10 + (c.toNat - 48)) cs

/-- Attempt to match (\d+)-Night at the start of the character list: the
maximal nonempty digit run followed immediately by -Night (a shorter,
backtracked digit run would have to be followed by a hyphen but is followed by
a digit, so only the maximal run can match). -/
def matchNightAt (cs : List Char) : Option Nat :=
  let ds := cs.takeWhile (fun c => c.isDigit)
  let rest := cs.dropWhile (fun c => c.isDigit)
  if ds.isEmpty then none
  else if ("-Night".toList).isPrefixOf rest then some (natOfDigits 0 ds) else none

/-- name.match(/(\d+)-Night/) without the global flag: the first (leftmost)
position where the pattern matches, scanning left to right. -/
def scanNight : List Char → Option Nat
  | [] => none
  | c :: cs =>
    match matchNightAt (c :: cs) with
    | some n => some n
    | none => scanNight cs

def matchNightPattern (s : String) : Option Nat := scanNight s.toList

/-- One meta_data entry of a WooCommerce line item. -/
structure RawMeta where
  key : String
  value : String
deriving DecidableEq, Repr

/-- A raw WooCommerce line item as received from the feed. -/
structure RawLineItem where
  id : Int
  name : String
  quantity : Int
  meta_data : List RawMeta
deriving DecidableEq, Repr

/-- Number of days in a month of the proleptic Gregorian calendar. -/
def daysInMonth (y m : Int) : Int :=
  if m = 2 then (if y % 4 = 0 ∧ (y % 100 ≠ 0 ∨ y % 400 = 0) then 29 else 28)
  else if m = 4 ∨ m = 6 ∨ m = 9 ∨ m = 11 then 30
  else 31

/-- new Date on a date-only string: strict YYYY-MM-DD parse to a day number;
none models an Invalid Date (wrong shape or out-of-range month or day, which
ECMAScript date-time string parsing rejects). -/
def parseYMD (s : String) : Option Int :=
  match s.toList with
  | [y1, y2, y3, y4, h1, m1, m2, h2, d1, d2] =>
    if y1.isDigit ∧ y2.isDigit ∧ y3.isDigit ∧ y4.isDigit ∧ h1 = '-' ∧
       m1.isDigit ∧ m2.isDigit ∧ h2 = '-' ∧ d1.isDigit ∧ d2.isDigit then
      let y : Int := (natOfDigits 0 [y1, y2, y3, y4] : Nat)
      let mo : Int := (natOfDigits 0 [m1, m2] : Nat)
      let da : Int := (natOfDigits 0 [d1, d2] : Nat)
      if 1 ≤ mo ∧ mo ≤ 12 ∧ 1 ≤ da ∧ da ≤ daysInMonth y mo then
        some (daysFromCivil y mo da)
      else none
    else none
  | _ => none

/-- transformLineItemForDB from woo-transform.ts: deliveryDate comes from the
first meta entry with key _prdd_lite_date (null when absent; an unparsable
value gives an Invalid Date, modelled as none), cruiseDuration from the
(\d+)-Night match on the product name (null when the pattern does not
match). -/
def transformLineItemForDB (li : RawLineItem) : LineItem :=
  { wooCommerceId := li.id
    name := li.name
    quantity := li.quantity
    deliveryDate :=
      match li.meta_data.find? (fun meta => meta.key == "_prdd_lite_date") with
      | some meta => parseYMD meta.value
      | none => none
    cruiseDuration := (matchNightPattern li.name).map (fun n => (n : Int)) }

theorem addItem_eq_of_invalid (m : List (Int × Int)) (it : LineItem)
    (h : it.deliveryDate = none ∨ it.cruiseDuration = none ∨
         ∃ n, it.cruiseDuration = some n ∧ n ≤ 0) : addItem m it = m := by
  unfold addItem
  rcases hdd : it.deliveryDate with _ | s
  · simp [hdd]
  · rcases hcd : it.cruiseDuration with _ | n
    · simp [hdd, hcd]
    · have hn0 : n ≤ 0 := by
        rcases h with h | h | ⟨n2, hn2, hle⟩
        · rw [hdd] at h
          cases h
        · rw [hcd] at h
          cases h
        · rw [hcd] at hn2
          cases hn2
          exact hle
      simp only [hdd, hcd]
      by_cases h0 : n = 0
      · rw [if_pos h0]
      · rw [if_neg h0]
        have htn : (n + 1).toNat = 0 := by omega
        rw [htn]
        rfl

/-- Claim C7: a line item with no start date, or with no duration or a
non-positive one, contributes zero days: removing it from the input leaves the
computed occupancy Map unchanged entry for entry, so the remaining items are
aggregated exactly as without it and no error is raised (the aggregation is a
total function); and a product name in which the (\d+)-Night pattern does not
match is transformed to a null duration. -/
theorem invalid_booking_excluded (pre post : List LineItem) (it : LineItem)
    (h : it.deliveryDate = none ∨ it.cruiseDuration = none ∨
         ∃ n, it.cruiseDuration = some n ∧ n ≤ 0) :
    calculateDailyOccupancy (pre ++ it :: post) = calculateDailyOccupancy (pre ++ post)
    ∧ (∀ li : RawLineItem, matchNightPattern li.name = none →
        (transformLineItemForDB li).cruiseDuration = none) := by
  constructor
  · unfold calculateDailyOccupancy
    rw [List.foldl_append, List.foldl_append, List.foldl_cons,
      addItem_eq_of_invalid (pre.foldl addItem []) it h]
  · intro li hm
    unfold transformLineItemForDB
    simp [hm]

theorem invalid_booking_excluded_witness :
    calculateDailyOccupancy
        [⟨1, "1-Night A", 1, some 10, some 1⟩, ⟨2, "0-Night B", 5, some 10, some 0⟩]
      = calculateDailyOccupancy [⟨1, "1-Night A", 1, some 10, some 1⟩]
    ∧ (transformLineItemForDB ⟨9, "Parking Pass", 1, []⟩).cruiseDuration = none :=
  ⟨(invalid_booking_excluded [⟨1, "1-Night A", 1, some 10, some 1⟩] []
      ⟨2, "0-Night B", 5, some 10, some 0⟩
      (Or.inr (Or.inr ⟨0, rfl, by decide⟩))).1,
    (invalid_booking_excluded [] [] ⟨2, "0-Night B", 5, some 10, some 0⟩
      (Or.inr (Or.inr ⟨0, rfl, by decide⟩))).2
      ⟨9, "Parking Pass", 1, []⟩ (by decide)⟩

/-- An HTTP response of the occupancy query endpoint: status code and the
returned (date, carCount) rows, empty on any error. -/
structure OccResponse where
  status : Nat
  rows : List (Int × Int)
deriving DecidableEq, Repr

/-- JavaScript falsiness of an optional string query parameter: absent, or
present but the empty string. -/
def jsFalsyParam (o : Option String) : Bool :=
  match o with
  | none => true
  | some s => s == ""

/-- GET /api/occupancy: !startDate || !endDate is rejected with status 400;
otherwise the range is queried with new Date(startDate) and new Date(endDate).
A present but malformed bound yields an Invalid Date; the Prisma comparison
against it throws inside the try block and the catch answers status 500 with
no rows. -/
def occupancyGET (start_date end_date : Option String) (items : List LineItem) :
    OccResponse :=
  if jsFalsyParam start_date || jsFalsyParam end_date then ⟨400, []⟩
  else
    match parseYMD (start_date.getD ""), parseYMD (end_date.getD "") with
    | some s, some e => ⟨200, queryRange items s e⟩
    | _, _ => ⟨500, []⟩

/-- Claim C9 counterexample: a present but malformed end_date bound is not
rejected by the validation, which only tests for missing parameters; the
request fails inside the try block and is answered with status 500, a server
error, not the claimed client error. No rows are returned. -/
theorem occupancy_query_malformed_counterexample :
    occupancyGET (some "2025-01-01") (some "not-a-date") [] = ⟨500, []⟩
    ∧ ¬ (400 ≤ (occupancyGET (some "2025-01-01") (some "not-a-date") []).status
          ∧ (occupancyGET (some "2025-01-01") (some "not-a-date") []).status < 500) := by
  exact ⟨by decide, by decide⟩

/-- Claim C9 (amended): a missing start_date or end_date bound (absent, or
present but empty) is rejected with a 400 client error and no rows; a present
but malformed bound is not caught by the validation and instead fails with a
500 server error, also with no rows; in neither case is a partial result
returned. -/
theorem occupancy_query_validation (sd ed : Option String) (items : List LineItem) :
    ((jsFalsyParam sd || jsFalsyParam ed) = true → occupancyGET sd ed items = ⟨400, []⟩)
    ∧ ((jsFalsyParam sd || jsFalsyParam ed) = false →
        (parseYMD (sd.getD "") = none ∨ parseYMD (ed.getD "") = none) →
        occupancyGET sd ed items = ⟨500, []⟩) := by
  constructor
  · intro h
    unfold occupancyGET
    rw [if_pos h]
  · intro h hbad
    unfold occupancyGET
    rw [if_neg (by simp [h])]
    rcases hs : parseYMD (sd.getD "") with _ | s
    · simp [hs]
    · rcases he : parseYMD (ed.getD "") with _ | e
      · simp [hs, he]
      · exfalso
        rcases hbad with hb | hb
        · rw [hs] at hb
          cases hb
        · rw [he] at hb
          cases hb

theorem occupancy_query_validation_witness :
    (jsFalsyParam (some "") || jsFalsyParam (some "2025-02-01")) = true
    ∧ occupancyGET (some "") (some "2025-02-01") [] = ⟨400, []⟩ :=
  ⟨by decide, (occupancy_query_validation (some "") (some "2025-02-01") []).1 (by decide)⟩

/-- A stored Order row with its line items. -/
structure DBOrder where
  wooCommerceId : Int
  status : String
  dateCreated : Int
  billingFirstName : String
  billingLastName : String
  billingEmail : String
  billingPhone : Option String
  lineItems : List LineItem
deriving DecidableEq, Repr

/-- The whole LineItem table: all line items across all orders. -/
def allLineItems (orders : List DBOrder) : List LineItem :=
  (orders.map (fun o => o.lineItems)).flatten

/-- The Prisma relation filter of the with-bookings path: the order has some
line item with deliveryDate ≤ day (a null date never satisfies lte) and
cruiseDuration not null. -/
def orderHasCandidateItem (d : Int) (o : DBOrder) : Bool :=
  o.lineItems.any (fun it =>
    (match it.deliveryDate with
     | some x => decide (x ≤ d)
     | none => false) && it.cruiseDuration.isSome)

/-- The include filter of the with-bookings path: a returned order carries
only its line items with both fields not null. -/
def withIncludedItems (o : DBOrder) : DBOrder :=
  { o with lineItems := o.lineItems.filter hasDates }

/-- The span test of the with-bookings path: JavaScript truthiness on both
fields (a zero duration is falsy), then start ≤ day ≤ start + duration where
the end date is start plus the duration in days. -/
def spansDate (d : Int) (it : LineItem) : Bool :=
  match it.deliveryDate, it.cruiseDuration with
  | some s, some n => if n = 0 then false else decide (s ≤ d ∧ d ≤ s + n)
  | _, _ => false

/-- ordersForThisDate of the with-bookings path: orders returned by the
relation query, restricted to their included items, that span the day. -/
def ordersForDate (orders : List DBOrder) (d : Int) : List DBOrder :=
  ((orders.filter (orderHasCandidateItem d)).map withIncludedItems).filter
    (fun o => o.lineItems.any (spansDate d))

/-- The body of the inner reduce of actualCarCount: add the quantity when the
item passes the truthiness guard and spans the day. -/
def itemContribution (d : Int) (ot : Int) (it : LineItem) : Int :=
  match it.deliveryDate, it.cruiseDuration with
  | some s, some n =>
    if n = 0 then ot
    else if s ≤ d ∧ d ≤ s + n then ot + it.quantity else ot
  | _, _ => ot

/-- actualCarCount of the with-bookings path: the double reduce over the
orders spanning the day and their line items. -/
def actualCarCount (orders : List DBOrder) (d : Int) : Int :=
  (ordersForDate orders d).foldl
    (fun total o => total + o.lineItems.foldl (itemContribution d) 0) 0

/-- GET occupancy with bookings: for each DailyOccupancy row in the range,
report the day with its recomputed actualCarCount instead of the stored
carCount. -/
def queryRangeWithBookings (orders : List DBOrder) (s e : Int) : List (Int × Int) :=
  (queryRange (allLineItems orders) s e).map (fun p => (p.1, actualCarCount orders p.1))

theorem spansDate_eq_covers (d : Int) (it : LineItem) :
    spansDate d it = covers d it := by
  unfold spansDate covers
  rcases hdd : it.deliveryDate with _ | s
  · rfl
  · rcases hcd : it.cruiseDuration with _ | n
    · rfl
    · by_cases h0 : n = 0
      · subst h0
        have hnot : ¬ (0 < (0 : Int) ∧ s ≤ d ∧ d ≤ s + 0) := by omega
        simp [hnot]
      · by_cases hpos : 0 < n
        · have hiff : (s ≤ d ∧ d ≤ s + n) ↔ (0 < n ∧ s ≤ d ∧ d ≤ s + n) :=
            ⟨fun hc => ⟨hpos, hc⟩, fun hc => hc.2⟩
          show (if n = 0 then false else decide (s ≤ d ∧ d ≤ s + n))
              = decide (0 < n ∧ s ≤ d ∧ d ≤ s + n)
          rw [if_neg h0]
          exact decide_eq_decide.2 hiff
        · have h1 : ¬ (s ≤ d ∧ d ≤ s + n) := by omega
          have h2 : ¬ (0 < n ∧ s ≤ d ∧ d ≤ s + n) := by omega
          simp [h0, h1, h2]

theorem itemContribution_eq (d ot : Int) (it : LineItem) :
    itemContribution d ot it = ot + coverContrib d it := by
  unfold itemContribution coverContrib covers
  rcases hdd : it.deliveryDate with _ | s
  · simp
  · rcases hcd : it.cruiseDuration with _ | n
    · simp
    · by_cases h0 : n = 0
      · subst h0
        have hnot : ¬ (0 < (0 : Int) ∧ s ≤ d ∧ d ≤ s + 0) := by omega
        simp [hnot]
      · by_cases hc : s ≤ d ∧ d ≤ s + n
        · by_cases hpos : 0 < n
          · have hyes : (0 < n ∧ s ≤ d ∧ d ≤ s + n) := ⟨hpos, hc⟩
            simp [h0, hc, hyes]
          · exact absurd hc (by omega)
        · have hno : ¬ (0 < n ∧ s ≤ d ∧ d ≤ s + n) := fun hh => hc hh.2
          simp [h0, hc, hno]

theorem foldl_itemContribution (d : Int) (l : List LineItem) (ot : Int) :
    l.foldl (itemContribution d) ot = ot + coverCount l d := by
  induction l generalizing ot with
  | nil => simp [coverCount]
  | cons it rest ih =>
    rw [List.foldl_cons, ih, itemContribution_eq, coverCount_cons]
    ring

theorem foldl_add_sum {α : Type} (l : List α) (f : α → Int) (a : Int) :
    l.foldl (fun t x => t + f x) a = a + (l.map f).sum := by
  induction l generalizing a with
  | nil => simp
  | cons x rest ih =>
    rw [List.foldl_cons, ih]
    simp
    ring

theorem coverCount_append (l1 l2 : List LineItem) (d : Int) :
    coverCount (l1 ++ l2) d = coverCount l1 d + coverCount l2 d := by
  unfold coverCount
  rw [List.map_append, List.sum_append]

theorem coverCount_allLineItems (orders : List DBOrder) (d : Int) :
    coverCount (allLineItems orders) d
      = (orders.map (fun o => coverCount o.lineItems d)).sum := by
  induction orders with
  | nil => rfl
  | cons o rest ih =>
    unfold allLineItems at ih ⊢
    rw [List.map_cons, List.flatten_cons, coverCount_append, ih, List.map_cons,
      List.sum_cons]

theorem covers_imp_candidate (d : Int) (o : DBOrder) (it : LineItem)
    (hit : it ∈ o.lineItems) (hc : covers d it = true) :
    orderHasCandidateItem d o = true := by
  rcases (covers_eq_true_iff d it).1 hc with ⟨st, du, h1, h2, _, h4, _⟩
  refine List.any_eq_true.2 ⟨it, hit, ?_⟩
  rw [h1, h2]
  simp [h4]

theorem coverCount_eq_zero_of_dropped (d : Int) (o : DBOrder)
    (h : orderHasCandidateItem d o = false
         ∨ (o.lineItems.filter hasDates).any (spansDate d) = false) :
    coverCount o.lineItems d = 0 := by
  apply coverCount_eq_zero_of_not_any
  rw [List.any_eq_false]
  intro it hit
  by_cases hc : covers d it = true
  · exfalso
    rcases h with h | h
    · rw [covers_imp_candidate d o it hit hc] at h
      cases h
    · rw [List.any_eq_false] at h
      have hmem : it ∈ o.lineItems.filter hasDates :=
        List.mem_filter.2 ⟨hit, covers_hasDates d it hc⟩
      have := h it hmem
      rw [spansDate_eq_covers, hc] at this
      exact this rfl
  · exact hc

theorem actualCarCount_eq_coverCount (orders : List DBOrder) (d : Int) :
    actualCarCount orders d = coverCount (allLineItems orders) d := by
  unfold actualCarCount
  rw [foldl_add_sum]
  rw [Int.zero_add]
  have hinner : ∀ o : DBOrder,
      o.lineItems.foldl (itemContribution d) 0 = coverCount o.lineItems d := by
    intro o
    rw [foldl_itemContribution]
    ring
  calc ((ordersForDate orders d).map
          (fun o => o.lineItems.foldl (itemContribution d) 0)).sum
      = ((ordersForDate orders d).map (fun o => coverCount o.lineItems d)).sum := by
        congr 1
        exact List.map_congr_left (fun o _ => hinner o)
    _ = (orders.map (fun o => coverCount o.lineItems d)).sum := by
        unfold ordersForDate
        rw [sum_map_filter_eq]
        · rw [List.map_map]
          have hcomp : ∀ o ∈ orders.filter (orderHasCandidateItem d),
              ((fun o => coverCount o.lineItems d) ∘ withIncludedItems) o
                = coverCount o.lineItems d := by
            intro o _
            show coverCount (o.lineItems.filter hasDates) d = coverCount o.lineItems d
            exact coverCount_filter_hasDates o.lineItems d
          rw [List.map_congr_left hcomp]
          rw [sum_map_filter_eq]
          intro o _ hdrop
          exact coverCount_eq_zero_of_dropped d o (Or.inl hdrop)
        · intro o ho hdrop
          rcases List.mem_map.1 ho with ⟨o0, ho0, rfl⟩
          show coverCount (o0.lineItems.filter hasDates) d = 0
          rw [coverCount_filter_hasDates]
          exact coverCount_eq_zero_of_dropped d o0 (Or.inr hdrop)
    _ = coverCount (allLineItems orders) d := (coverCount_allLineItems orders d).symm

theorem map_eq_self {α : Type} (l : List α) (f : α → α) (h : ∀ a ∈ l, f a = a) :
    l.map f = l := by
  induction l with
  | nil => rfl
  | cons a rest ih =>
    rw [List.map_cons, h a (List.mem_cons_self a rest),
      ih (fun x hx => h x (List.mem_cons_of_mem a hx))]

/-- Claim C3: for every stored order set and every query range, the
with-bookings path, which recomputes each reported day from the raw line items
by the inclusive-span containment rule, returns exactly the rows of the
materialized-store path: the same days, with identical carCount on every
one of them. -/
theorem queryRange_withBookings_consistent (orders : List DBOrder) (s e : Int) :
    queryRangeWithBookings orders s e = queryRange (allLineItems orders) s e := by
  unfold queryRangeWithBookings
  apply map_eq_self
  intro p hp
  have hmem : p ∈ dailyOccupancyStore (allLineItems orders) :=
    List.mem_of_mem_filter hp
  have hval := store_value_eq_coverCount (allLineItems orders) p hmem
  rw [actualCarCount_eq_coverCount, ← hval]

/-- Billing block of a fetched WooCommerce order. -/
structure WooBilling where
  first_name : String
  last_name : String
  email : String
  phone : Option String
deriving DecidableEq, Repr

/-- A WooCommerce order as fetched from the feed; date_created is taken as an
already parsed timestamp. -/
structure WooOrder where
  id : Int
  status : String
  date_created : Int
  line_items : List RawLineItem
  billing : WooBilling
deriving DecidableEq, Repr

/-- wooOrder.billing.phone || null: an absent phone, or a present but empty
(falsy) one, becomes null. -/
def phoneOrNull (p : Option String) : Option String :=
  match p with
  | some s => if s = "" then none else some s
  | none => none

/-- transformWooOrderForDB from woo-transform.ts: the row created for a new
order; the wooCommerceId column doubles as the store key. -/
def transformWooOrderForDB (w : WooOrder) : DBOrder :=
  { wooCommerceId := w.id
    status := w.status
    dateCreated := w.date_created
    billingFirstName := w.billing.first_name
    billingLastName := w.billing.last_name
    billingEmail := w.billing.email
    billingPhone := phoneOrNull w.billing.phone
    lineItems := w.line_items.map transformLineItemForDB }

/-- The Order table, an association from wooCommerceId to the stored row. -/
def OrderStore : Type := List (Int × DBOrder)

/-- The per-order upsert of POST /api/sync: when an order with this
wooCommerceId already exists, update its mutable fields and replace its
booking set (deleteMany, then create from the fetched line items); otherwise
create the order via transformWooOrderForDB. -/
def upsertOrder (s : List (Int × DBOrder)) (w : WooOrder) : List (Int × DBOrder) :=
  match aget s w.id with
  | some old =>
      aset s w.id
        { old with
          status := w.status
          dateCreated := w.date_created
          billingFirstName := w.billing.first_name
          billingLastName := w.billing.last_name
          billingEmail := w.billing.email
          billingPhone := phoneOrNull w.billing.phone
          lineItems := w.line_items.map transformLineItemForDB }
  | none => aset s w.id (transformWooOrderForDB w)

/-- The reconciliation loop of POST /api/sync over one list of fetched
orders. -/
def runSyncOrders (s : List (Int × DBOrder)) (ws : List WooOrder) :
    List (Int × DBOrder) :=
  ws.foldl upsertOrder s

/-- The DailyOccupancy aggregate recomputed from the whole order store after
the loop. -/
def storeAggregate (s : List (Int × DBOrder)) : List (Int × Int) :=
  dailyOccupancyStore (allLineItems (s.map Prod.snd))

theorem aget_mem {α : Type} (m : List (Int × α)) (k : Int) (v : α)
    (h : aget m k = some v) : (k, v) ∈ m := by
  induction m with
  | nil => cases h
  | cons p rest ih =>
    by_cases hp : p.1 = k
    · simp only [aget, if_pos hp] at h
      cases h
      subst hp
      exact (by simp : (p.1, p.2) ∈ p :: rest)
    · simp only [aget, if_neg hp] at h
      exact List.mem_cons_of_mem p (ih h)

theorem mem_aset {α : Type} (m : List (Int × α)) (k : Int) (v : α) (p : Int × α) :
    p ∈ aset m k v → p ∈ m ∨ p = (k, v) := by
  induction m with
  | nil =>
    intro h
    rcases List.mem_cons.1 h with h1 | h1
    · exact Or.inr h1
    · cases h1
  | cons q rest ih =>
    intro h
    by_cases hq : q.1 = k
    · rw [show aset (q :: rest) k v = (k, v) :: rest from by simp [aset, hq]] at h
      rcases List.mem_cons.1 h with h1 | h1
      · exact Or.inr h1
      · exact Or.inl (List.mem_cons_of_mem q h1)
    · rw [show aset (q :: rest) k v = q :: aset rest k v from by simp [aset, hq]] at h
      rcases List.mem_cons.1 h with h1 | h1
      · exact Or.inl (h1 ▸ List.mem_cons_self q rest)
      · rcases ih h1 with h2 | h2
        · exact Or.inl (List.mem_cons_of_mem q h2)
        · exact Or.inr h2

theorem aget_eq_none {α : Type} (m : List (Int × α)) (k : Int)
    (h : k ∉ m.map Prod.fst) : aget m k = none := by
  induction m with
  | nil => rfl
  | cons p rest ih =>
    rw [List.map_cons, List.mem_cons] at h
    push_neg at h
    have hp : ¬ p.1 = k := fun hh => h.1 hh.symm
    simp only [aget, if_neg hp]
    exact ih h.2

theorem aget_isSome_iff_mem_keys {α : Type} (m : List (Int × α)) (k : Int) :
    (aget m k).isSome = true ↔ k ∈ m.map Prod.fst := by
  induction m with
  | nil => simp [aget]
  | cons p rest ih =>
    by_cases hp : p.1 = k
    · simp [aget, hp]
    · simp only [aget, if_neg hp, List.map_cons, List.mem_cons, ih]
      constructor
      · exact fun h => Or.inr h
      · intro h
        rcases h with h | h
        · exact absurd h.symm hp
        · exact h

/-- Under the key-column invariant, both upsert branches write exactly the
transformed row: the update branch differs from the create branch only in
keeping the old wooCommerceId, which already equals the key. -/
theorem upsertOrder_eq (s : List (Int × DBOrder)) (w : WooOrder)
    (hinv : ∀ p ∈ s, (p.2).wooCommerceId = p.1) :
    upsertOrder s w = aset s w.id (transformWooOrderForDB w) := by
  unfold upsertOrder
  rcases hg : aget s w.id with _ | old
  · rfl
  · have hm := aget_mem s w.id old hg
    have hid : old.wooCommerceId = w.id := hinv (w.id, old) hm
    have hrec : ({ old with
        status := w.status
        dateCreated := w.date_created
        billingFirstName := w.billing.first_name
        billingLastName := w.billing.last_name
        billingEmail := w.billing.email
        billingPhone := phoneOrNull w.billing.phone
        lineItems := w.line_items.map transformLineItemForDB } : DBOrder)
        = transformWooOrderForDB w := by
      unfold transformWooOrderForDB
      cases old
      simp only at hid
      rw [hid]
    simp only [hrec]

/-- The row the loop leaves for a key: the transform of the last fetched order
with that wooCommerceId, if any. -/
def lastTarget (ws : List WooOrder) (k : Int) : Option DBOrder :=
  ws.foldl
    (fun acc w => if w.id = k then some (transformWooOrderForDB w) else acc) none

theorem lastTarget_from_acc (ws : List WooOrder) (k : Int) :
    ∀ a : Option DBOrder,
      ws.foldl
        (fun acc w => if w.id = k then some (transformWooOrderForDB w) else acc) a
      = (lastTarget ws k).or a := by
  induction ws with
  | nil => exact fun a => rfl
  | cons w rest ih =>
    intro a
    rw [List.foldl_cons]
    have hlt : lastTarget (w :: rest) k
        = (lastTarget rest k).or
            (if w.id = k then some (transformWooOrderForDB w) else none) := by
      unfold lastTarget
      rw [List.foldl_cons]
      exact ih _
    rw [ih, hlt]
    rcases lastTarget rest k with _ | t
    · by_cases hw : w.id = k
      · rw [if_pos hw, if_pos hw]
        rfl
      · rw [if_neg hw, if_neg hw]
        rfl
    · rfl

theorem lastTarget_isSome (ws : List WooOrder) (w : WooOrder) (hw : w ∈ ws) :
    (lastTarget ws w.id).isSome = true := by
  induction ws with
  | nil => cases hw
  | cons w0 rest ih =>
    have hstep : lastTarget (w0 :: rest) w.id
        = (lastTarget rest w.id).or
            (if w0.id = w.id then some (transformWooOrderForDB w0) else none) := by
      unfold lastTarget
      rw [List.foldl_cons]
      exact lastTarget_from_acc rest w.id _
    rw [hstep]
    rcases List.mem_cons.1 hw with heq | hmem
    · subst heq
      rcases lastTarget rest w.id with _ | t
      · rw [if_pos rfl]
        rfl
      · rfl
    · have hs := ih hmem
      rcases hlt : lastTarget rest w.id with _ | t
      · rw [hlt] at hs
        cases hs
      · rfl

theorem keyInv_aset (s : List (Int × DBOrder)) (k : Int) (v : DBOrder)
    (hinv : ∀ p ∈ s, (p.2).wooCommerceId = p.1) (hv : v.wooCommerceId = k) :
    ∀ p ∈ aset s k v, (p.2).wooCommerceId = p.1 := by
  intro p hp
  rcases mem_aset s k v p hp with h | h
  · exact hinv p h
  · rw [h]
    exact hv

theorem keyInv_upsert (s : List (Int × DBOrder)) (w : WooOrder)
    (hinv : ∀ p ∈ s, (p.2).wooCommerceId = p.1) :
    ∀ p ∈ upsertOrder s w, (p.2).wooCommerceId = p.1 := by
  rw [upsertOrder_eq s w hinv]
  exact keyInv_aset s w.id (transformWooOrderForDB w) hinv rfl

theorem keyInv_runSync (ws : List WooOrder) :
    ∀ (s : List (Int × DBOrder)), (∀ p ∈ s, (p.2).wooCommerceId = p.1) →
      ∀ p ∈ runSyncOrders s ws, (p.2).wooCommerceId = p.1 := by
  induction ws with
  | nil => exact fun s hinv => hinv
  | cons w rest ih =>
    intro s hinv
    unfold runSyncOrders
    rw [List.foldl_cons]
    exact ih (upsertOrder s w) (keyInv_upsert s w hinv)

theorem nodup_keys_upsert (s : List (Int × DBOrder)) (w : WooOrder)
    (h : (s.map Prod.fst).Nodup) : ((upsertOrder s w).map Prod.fst).Nodup := by
  unfold upsertOrder
  rcases hg : aget s w.id with _ | old
  · exact nodup_keys_aset s w.id _ h
  · exact nodup_keys_aset s w.id _ h

theorem nodup_keys_runSync (ws : List WooOrder) :
    ∀ (s : List (Int × DBOrder)), (s.map Prod.fst).Nodup →
      ((runSyncOrders s ws).map Prod.fst).Nodup := by
  induction ws with
  | nil => exact fun s h => h
  | cons w rest ih =>
    intro s h
    unfold runSyncOrders
    rw [List.foldl_cons]
    exact ih (upsertOrder s w) (nodup_keys_upsert s w h)

theorem aget_runSync (ws : List WooOrder) :
    ∀ (s : List (Int × DBOrder)), (∀ p ∈ s, (p.2).wooCommerceId = p.1) →
      ∀ k : Int, aget (runSyncOrders s ws) k = (lastTarget ws k).or (aget s k) := by
  induction ws with
  | nil => exact fun s _ k => rfl
  | cons w rest ih =>
    intro s hinv k
    unfold runSyncOrders
    rw [List.foldl_cons, upsertOrder_eq s w hinv]
    have hinv2 : ∀ p ∈ aset s w.id (transformWooOrderForDB w), (p.2).wooCommerceId = p.1 :=
      keyInv_aset s w.id (transformWooOrderForDB w) hinv rfl
    have hrec := ih (aset s w.id (transformWooOrderForDB w)) hinv2 k
    rw [show List.foldl upsertOrder (aset s w.id (transformWooOrderForDB w)) rest
        = runSyncOrders (aset s w.id (transformWooOrderForDB w)) rest from rfl, hrec]
    have hlt : lastTarget (w :: rest) k
        = (lastTarget rest k).or
            (if w.id = k then some (transformWooOrderForDB w) else none) := by
      unfold lastTarget
      rw [List.foldl_cons]
      exact lastTarget_from_acc rest k _
    rw [hlt]
    rcases lastTarget rest k with _ | t
    · by_cases hw : w.id = k
      · rw [if_pos hw, ← hw, aget_aset_self]
        rfl
      · rw [if_neg hw, aget_aset_ne s w.id k _ (fun hh => hw hh.symm)]
        rfl
    · rfl

theorem keys_runSync_of_all_mem (ws : List WooOrder) :
    ∀ (t : List (Int × DBOrder)), (∀ p ∈ t, (p.2).wooCommerceId = p.1) →
      (∀ w ∈ ws, w.id ∈ t.map Prod.fst) →
      (runSyncOrders t ws).map Prod.fst = t.map Prod.fst := by
  induction ws with
  | nil => exact fun t _ _ => rfl
  | cons w rest ih =>
    intro t hinv hall
    unfold runSyncOrders
    rw [List.foldl_cons, upsertOrder_eq t w hinv]
    have hkeys : (aset t w.id (transformWooOrderForDB w)).map Prod.fst = t.map Prod.fst := by
      rw [keys_aset, if_pos (hall w (List.mem_cons_self w rest))]
    have hinv2 := keyInv_aset t w.id (transformWooOrderForDB w) hinv rfl
    have hall2 : ∀ x ∈ rest, x.id ∈ (aset t w.id (transformWooOrderForDB w)).map Prod.fst := by
      rw [hkeys]
      exact fun x hx => hall x (List.mem_cons_of_mem w hx)
    rw [show List.foldl upsertOrder (aset t w.id (transformWooOrderForDB w)) rest
        = runSyncOrders (aset t w.id (transformWooOrderForDB w)) rest from rfl,
      ih _ hinv2 hall2, hkeys]

theorem assoc_ext {α : Type} :
    ∀ (m1 m2 : List (Int × α)),
      m1.map Prod.fst = m2.map Prod.fst → (m1.map Prod.fst).Nodup →
      (∀ k, aget m1 k = aget m2 k) → m1 = m2 := by
  intro m1
  induction m1 with
  | nil =>
    intro m2 hk _ _
    cases m2 with
    | nil => rfl
    | cons q rest2 => cases hk
  | cons p rest ih =>
    intro m2 hk hnd hget
    cases m2 with
    | nil => cases hk
    | cons q rest2 =>
      rw [List.map_cons, List.map_cons] at hk
      injection hk with hk1 hk2
      rw [List.map_cons, List.nodup_cons] at hnd
      have hv : p.2 = q.2 := by
        have h1 := hget p.1
        rw [show aget (p :: rest) p.1
            = if p.1 = p.1 then some p.2 else aget rest p.1 from rfl,
          if_pos rfl,
          show aget (q :: rest2) p.1
            = if q.1 = p.1 then some q.2 else aget rest2 p.1 from rfl,
          if_pos hk1.symm] at h1
        exact Option.some.inj h1
      have hrest : rest = rest2 := by
        refine ih rest2 hk2 hnd.2 ?_
        intro k
        by_cases hkp : k = p.1
        · rw [aget_eq_none rest k (by rw [hkp]; exact hnd.1),
            aget_eq_none rest2 k (by rw [hkp]; exact hk2 ▸ hnd.1)]
        · have h2 := hget k
          rw [show aget (p :: rest) k
              = if p.1 = k then some p.2 else aget rest k from rfl,
            if_neg (fun hh => hkp hh.symm)] at h2
          rw [show aget (q :: rest2) k
              = if q.1 = k then some q.2 else aget rest2 k from rfl,
            if_neg (by rw [← hk1]; exact fun hh => hkp hh.symm)] at h2
          exact h2
      have hpq : p = q := by
        cases p
        cases q
        simp only at hk1 hv
        rw [hk1, hv]
      rw [hpq, hrest]

/-- Claim C8: reconciling the same list of fetched orders twice in succession,
the second pass performing the replace-booking-set upsert for every order now
present, leaves the order store (orders together with their line items)
exactly as after one pass, and therefore the recomputed DailyOccupancy
aggregate as well. The store is assumed well formed: wooCommerceId is unique
(it carries a unique index) and each row's wooCommerceId column equals its
key, since they are the same column. -/
theorem reconcile_idempotent (s : List (Int × DBOrder)) (ws : List WooOrder)
    (hnd : (s.map Prod.fst).Nodup)
    (hinv : ∀ p ∈ s, (p.2).wooCommerceId = p.1) :
    runSyncOrders (runSyncOrders s ws) ws = runSyncOrders s ws
    ∧ storeAggregate (runSyncOrders (runSyncOrders s ws) ws)
        = storeAggregate (runSyncOrders s ws) := by
  have hinv1 : ∀ p ∈ runSyncOrders s ws, (p.2).wooCommerceId = p.1 :=
    keyInv_runSync ws s hinv
  have hnd1 : ((runSyncOrders s ws).map Prod.fst).Nodup :=
    nodup_keys_runSync ws s hnd
  have hall : ∀ w ∈ ws, w.id ∈ (runSyncOrders s ws).map Prod.fst := by
    intro w hw
    rw [← aget_isSome_iff_mem_keys, aget_runSync ws s hinv w.id]
    have hs := lastTarget_isSome ws w hw
    rcases hlt : lastTarget ws w.id with _ | t
    · rw [hlt] at hs
      cases hs
    · rfl
  have hmain : runSyncOrders (runSyncOrders s ws) ws = runSyncOrders s ws := by
    refine assoc_ext _ _ (keys_runSync_of_all_mem ws (runSyncOrders s ws) hinv1 hall)
      (nodup_keys_runSync ws (runSyncOrders s ws) hnd1) ?_
    intro k
    rw [aget_runSync ws (runSyncOrders s ws) hinv1 k, aget_runSync ws s hinv k]
    rcases lastTarget ws k with _ | t
    · rfl
    · rfl
  exact ⟨hmain, by rw [hmain]⟩

theorem reconcile_idempotent_witness :
    runSyncOrders
        (runSyncOrders []
          [⟨21, "completed", 400, [⟨31, "2-Night Cruise Parking", 2,
              [⟨"_prdd_lite_date", "2025-06-01"⟩]⟩],
            ⟨"Ada", "Lovelace", "ada. at example", none⟩⟩])
        [⟨21, "completed", 400, [⟨31, "2-Night Cruise Parking", 2,
            [⟨"_prdd_lite_date", "2025-06-01"⟩]⟩],
          ⟨"Ada", "Lovelace", "ada. at example", none⟩⟩]
      = runSyncOrders []
          [⟨21, "completed", 400, [⟨31, "2-Night Cruise Parking", 2,
              [⟨"_prdd_lite_date", "2025-06-01"⟩]⟩],
            ⟨"Ada", "Lovelace", "ada. at example", none⟩⟩] :=
  (reconcile_idempotent []
    [⟨21, "completed", 400, [⟨31, "2-Night Cruise Parking", 2,
        [⟨"_prdd_lite_date", "2025-06-01"⟩]⟩],
      ⟨"Ada", "Lovelace", "ada. at example", none⟩⟩]
    (by simp) (by simp)).1

end ParkingCalendar
